import Mathlib

/-!
Shallow embedding of the allegoryjs runtime core: the EntityStore (ECS,
`src/ecs.ts`) and the intent pipeline / auction (`intent-pipeline.ts`, final
revision).  JavaScript `Map`s are modelled as insertion-ordered association
lists with JS `Map` semantics (`set` updates in place, otherwise appends);
JS numbers that carry scores are modelled as exact rationals (every weight in
the source, including 2.5, is exactly representable).  Wall-clock time
(`Date.now()`), which no verified property observes, is modelled as 0.
-/

namespace Allegory

/-- A JavaScript value as it appears in component data and prop matchers:
`string | number | boolean`, plus the `Set<string>` used by the `Tags`
component. -/
inductive Value where
  | str (s : String)
  | num (q : Rat)
  | boolean (b : Bool)
  | strSet (l : List String)
deriving DecidableEq, Repr

/-- A JavaScript `Map` (or plain object), as an insertion-ordered association
list. -/
abbrev JsMap (α β : Type) : Type := List (α × β)

namespace JsMap

/-- Source `map.get(k)`: the value at the first matching key. -/
def get {α β : Type} [DecidableEq α] (m : JsMap α β) (k : α) : Option β :=
  match m with
  | [] => none
  | (k', v) :: rest => if k' = k then some v else get rest k

/-- Source `map.has(k)`. -/
def hasKey {α β : Type} [DecidableEq α] (m : JsMap α β) (k : α) : Bool :=
  (get m k).isSome

/-- Source `map.set(k, v)`: replaces in place when the key exists (keeping its
position, as JS `Map` does), otherwise appends. -/
def set {α β : Type} [DecidableEq α] (m : JsMap α β) (k : α) (v : β) : JsMap α β :=
  match m with
  | [] => [(k, v)]
  | (k', v') :: rest => if k' = k then (k', v) :: rest else (k', v') :: set rest k v

/-- Source `map.delete(k)`. -/
def del {α β : Type} [DecidableEq α] (m : JsMap α β) (k : α) : JsMap α β :=
  match m with
  | [] => []
  | (k', v') :: rest => if k' = k then rest else (k', v') :: del rest k

/-- Source `map.size` (association lists built through `set`/`del` have no duplicate
keys, so the length is the number of keys). -/
def size {α β : Type} (m : JsMap α β) : Nat := m.length

/-- Source `map.keys()` in insertion order. -/
def keys {α β : Type} (m : JsMap α β) : List α := m.map Prod.fst

end JsMap

/-- Data held by one component on one entity: a JS record, field name to
value, in insertion order. -/
abbrev CompData : Type := JsMap String Value

/-- Errors thrown by the EntityStore (`throw new Error(...)` sites in
`ecs.ts`). -/
inductive EcsError where
  | duplicateComponent (name : String)
  | unknownComponent (name : String)
  | duplicatePrettyId (id : String)
deriving DecidableEq, Repr

/-- The private state of the `ECS` class: `#nextEntityId`, `#activeEntities`,
`#components` and `#prettyIdMap`. -/
structure ECSState where
  nextEntityId : Nat
  activeEntities : List Nat
  components : JsMap String (JsMap Nat CompData)
  prettyIdMap : JsMap String Nat
deriving Repr, DecidableEq, Inhabited

/-- The `ECS` constructor: bootstraps the `Tags` and `Meta` stores. -/
def initECS : ECSState :=
  { nextEntityId := 1
    activeEntities := []
    components := [("Tags", []), ("Meta", [])]
    prettyIdMap := [] }

/-- Source `isComponent(name)`. -/
def isComponent (s : ECSState) (name : String) : Bool :=
  JsMap.hasKey s.components name

/-- Source `defineComponent(name)`: registers a fresh empty store, throws
`DuplicateComponent` on a name collision. -/
def defineComponent (s : ECSState) (name : String) : Except EcsError ECSState :=
  if JsMap.hasKey s.components name then
    .error (.duplicateComponent name)
  else
    .ok { s with components := JsMap.set s.components name [] }

/-- Source `setComponentOnEntity(entity, name, data)`: throws `UnknownComponent` when
the store is missing, otherwise `store.set(entity, data)`. -/
def setComponentOnEntity (s : ECSState) (entity : Nat) (name : String)
    (data : CompData) : Except EcsError ECSState :=
  match JsMap.get s.components name with
  | none => .error (.unknownComponent name)
  | some store =>
      .ok { s with components := JsMap.set s.components name (JsMap.set store entity data) }

/-- The spread `{ ...store.get(entity), ...data }`: a shallow merge where
fields of `data` override, keeping the original field order for existing
keys and appending new ones. -/
def jsSpreadMerge (oldData : CompData) (data : CompData) : CompData :=
  data.foldl (fun acc kv => JsMap.set acc kv.1 kv.2) oldData

/-- Source `updateComponentData(entity, name, data)`: throws `UnknownComponent` when
the store is missing, otherwise stores the shallow merge of the existing data
(`{}` when absent) with `data`. -/
def updateComponentData (s : ECSState) (entity : Nat) (name : String)
    (data : CompData) : Except EcsError ECSState :=
  match JsMap.get s.components name with
  | none => .error (.unknownComponent name)
  | some store =>
      let merged := jsSpreadMerge ((JsMap.get store entity).getD []) data
      .ok { s with components := JsMap.set s.components name (JsMap.set store entity merged) }

/-- Source `removeComponentFromEntity(entity, componentType)`:
`this.#components.get(componentType)?.delete(entity)` — silently does nothing
when the component is unregistered (optional chaining, no throw). -/
def removeComponentFromEntity (s : ECSState) (entity : Nat) (name : String) : ECSState :=
  match JsMap.get s.components name with
  | none => s
  | some store =>
      { s with components := JsMap.set s.components name (JsMap.del store entity) }

/-- Source `getEntityComponentData(entity, name)`: the stored data, `undefined` when
absent.  The source pipes the value through `deepFreeze` (a deep frozen copy);
in this pure model values have no identity, so the snapshot is the value
itself. -/
def getEntityComponentData (s : ECSState) (entity : Nat) (name : String) : Option CompData :=
  match JsMap.get s.components name with
  | none => none
  | some store => JsMap.get store entity

/-- Source `entityHasComponent(entity, componentType)`. -/
def entityHasComponent (s : ECSState) (entity : Nat) (name : String) : Bool :=
  match JsMap.get s.components name with
  | none => false
  | some store => JsMap.hasKey store entity

/-- Source `getComponentsOnEntity(entity)`: names of the stores holding the entity,
in store insertion order. -/
def getComponentsOnEntity (s : ECSState) (entity : Nat) : List String :=
  (s.components.map Prod.fst).filter (fun name => entityHasComponent s entity name)

/-- The size used by the `getEntitiesByComponents` sort:
`this.#components.get(t)?.size ?? 0`. -/
def storeSizeOf (s : ECSState) (name : String) : Nat :=
  match JsMap.get s.components name with
  | none => 0
  | some store => JsMap.size store

/-- Source `getEntitiesByComponents(...componentTypes)`: sorts the requested names
ascending by store size (JS `Array.prototype.sort` is stable → `mergeSort`),
then `if (!smallestType) return []` — the guard fires when the head is
`undefined` (empty request, the `[]` match arm) and also when it is the falsy
empty-string name — then iterates the smallest store's keys and keeps those
present in every other store. -/
def getEntitiesByComponents (s : ECSState) (componentTypes : List String) : List Nat :=
  if componentTypes = [] then []
  else
    match componentTypes.mergeSort (fun a b => storeSizeOf s a ≤ storeSizeOf s b) with
    | [] => []
    | smallestType :: rest =>
        if smallestType = "" then []
        else
          match JsMap.get s.components smallestType with
          | none => []
          | some smallestStore =>
              if JsMap.size smallestStore = 0 then []
              else
                (JsMap.keys smallestStore).filter
                  (fun entity => rest.all (fun t => entityHasComponent s entity t))

/-- Source `destroyEntity(entity)`: deletes the entity from every store and from the
active set. -/
def destroyEntity (s : ECSState) (entity : Nat) : ECSState :=
  { s with
    components := s.components.map (fun kv => (kv.1, JsMap.del kv.2 entity))
    activeEntities := s.activeEntities.filter (fun e => e ≠ entity) }

/-- Source `getEntityByPrettyId(id)`. -/
def getEntityByPrettyId (s : ECSState) (id : String) : Option Nat :=
  JsMap.get s.prettyIdMap id

/-- Source `new Set<string>()` wrapped as the `Tags` component data. -/
def emptyTagsData : CompData := [("list", Value.strSet [])]

/-- The body of `createEntity` past the duplicate check: allocates the next
id, adds it to the active set (JS `Set.add`), bootstraps `Tags` and `Meta`
(the `Meta.id` is `metaId || 'entity_' + id`, a falsy — absent or empty —
`metaId` falling back to the default), and returns the new state with the
id.  The two `setComponentOnEntity` calls propagate their exceptions. -/
def createEntityBody (s : ECSState) (metaId : Option String) :
    Except EcsError (ECSState × Nat) :=
  let id := s.nextEntityId
  let active :=
    if s.activeEntities.contains id then s.activeEntities else s.activeEntities ++ [id]
  let s₂ : ECSState :=
    { nextEntityId := s.nextEntityId + 1
      activeEntities := active
      components := s.components
      prettyIdMap := s.prettyIdMap }
  match setComponentOnEntity s₂ id "Tags" emptyTagsData with
  | .error e => .error e
  | .ok s₃ =>
      let metaIdValue :=
        match metaId with
        | some mid => if mid ≠ "" then mid else "entity_" ++ toString id
        | none => "entity_" ++ toString id
      match setComponentOnEntity s₃ id "Meta"
          [("name", Value.str ("Entity_" ++ toString id)),
           ("id", Value.str metaIdValue), ("created", Value.num 0)] with
      | .error e => .error e
      | .ok s₄ => .ok (s₄, id)

/-- Source `createEntity(metaId?)`: throws `DuplicatePrettyId` when `metaId` is
truthy and already indexed (the source never writes `#prettyIdMap`, so the
check reads the map as it is), then runs `createEntityBody`. -/
def createEntity (s : ECSState) (metaId : Option String := none) :
    Except EcsError (ECSState × Nat) :=
  match metaId with
  | some mid =>
      if mid ≠ "" ∧ JsMap.hasKey s.prettyIdMap mid then
        .error (.duplicatePrettyId mid)
      else createEntityBody s metaId
  | none => createEntityBody s metaId

/-- Source `addTagToEntity(entity, tag)`: reads the `Tags` data and, when present,
adds the tag to its `list` set (in-place JS `Set.add`, modelled by writing the
grown record back). -/
def addTagToEntity (s : ECSState) (entity : Nat) (tag : String) : ECSState :=
  match JsMap.get s.components "Tags" with
  | none => s
  | some store =>
      match JsMap.get store entity with
      | none => s
      | some tagData =>
          let newList :=
            match JsMap.get tagData "list" with
            | some (Value.strSet l) => if l.contains tag then l else l ++ [tag]
            | _ => [tag]
          let newData := JsMap.set tagData "list" (Value.strSet newList)
          { s with components := JsMap.set s.components "Tags" (JsMap.set store entity newData) }

/-- Source `entityHasTag(entity, tag)`: `getEntityComponentData(entity,
'Tags')?.list.has(tag) ?? false`. -/
def entityHasTag (s : ECSState) (entity : Nat) (tag : String) : Bool :=
  match getEntityComponentData s entity "Tags" with
  | none => false
  | some tagData =>
      match JsMap.get tagData "list" with
      | some (Value.strSet l) => l.contains tag
      | _ => false

/-! ## Intent pipeline (`intent-pipeline.ts`, final revision) -/

/-- Source `LawLayer`: closed enumeration `Core = 0 < StdLib = 1 < Domain = 2 <
Instance = 3`. -/
inductive LawLayer where
  | core
  | stdLib
  | domain
  | instanceLayer
deriving DecidableEq, Repr

/-- The numeric value of a layer, as in the TS `enum`. -/
def LawLayer.toNat : LawLayer → Nat
  | .core => 0
  | .stdLib => 1
  | .domain => 2
  | .instanceLayer => 3

/-- Source `ContributionStatus`: `PASS`, `REJECTED`, `COMPLETED`. -/
inductive ContributionStatus where
  | pass
  | rejected
  | completed
deriving DecidableEq, Repr

/-- Source `MutationOp`: the tagged mutation variants a contribution may propose. -/
inductive LawMutationOp where
  | update (entity : Nat) (component : String) (value : CompData)
  | setOp (entity : Nat) (component : String) (value : CompData)
  | add (entity : Nat) (component : String) (value : CompData)
  | remove (entity : Nat) (component : String)
  | destroy (entity : Nat)
deriving DecidableEq, Repr

/-- Source `EngineEvent`: `{ type, payload? }`. -/
structure EngineEvent where
  type : String
  payload : Option Value := none
deriving DecidableEq, Repr

/-- Source `Contribution`: status plus optional mutations / narrations / events. -/
structure Contribution where
  status : ContributionStatus
  mutations : Option (List LawMutationOp) := none
  narrations : Option (List String) := none
  events : Option (List EngineEvent) := none
deriving DecidableEq, Repr

/-- One `props` entry of a concern: `{ prop: "ComponentName.propName", value }`. -/
structure PropMatcher where
  prop : String
  value : Value
deriving DecidableEq, Repr

/-- Source `LawConcern`: each field absent (`undefined`) or a list. -/
structure LawConcern where
  components : Option (List String) := none
  props : Option (List PropMatcher) := none
  tags : Option (List String) := none
  ids : Option (List String) := none
deriving DecidableEq, Repr

/-- Source `LawMatcher`: one scenario, actor / target / auxiliary concerns. -/
structure LawMatcher where
  actor : Option LawConcern := none
  target : Option LawConcern := none
  auxiliary : Option (List LawConcern) := none
deriving DecidableEq, Repr

/-- Source `Intent`. -/
structure Intent where
  name : String
  actor : Option Nat := none
  target : Option Nat := none
  auxiliary : Option (List Nat) := none
deriving DecidableEq, Repr

/-- Source `LawContext` handed to `law.apply`: the intent data plus the reordered
auxiliaries; `ecsUtils` (the read-only facade) is modelled by the ECS state
the facade reads. -/
structure LawContext where
  actor : Option Nat
  target : Option Nat
  auxiliary : Option (List Nat)
  originalAuxiliaries : Option (List Nat)
  ecs : ECSState

/-- Source `Law`. -/
structure Law where
  layer : LawLayer
  name : String
  intents : List String
  matchers : List LawMatcher
  apply : LawContext → Contribution

/-- Source `LawBid`. -/
structure LawBid where
  law : Law
  score : Rat
  reorderedAuxiliaries : Option (List Nat)

/-- Source `biddingIdMatchPrice: 100` (fixed by the config's literal type). -/
def biddingIdMatchPrice : Rat := 100

/-- Source `biddingComponentMatchPrice: 10`. -/
def biddingComponentMatchPrice : Rat := 10

/-- Source `biddingPropsMatchPrice: 20`. -/
def biddingPropsMatchPrice : Rat := 20

/-- Source `biddingTagsMatchPrice: 2.5`. -/
def biddingTagsMatchPrice : Rat := 5 / 2

/-- The `ids` reduce of `#calculateConcernSpecificity`: id-match weight for
every pretty id resolving to this entity. -/
def concernIdScore (s : ECSState) (entity : Nat) (ids : List String) : Rat :=
  ids.foldl
    (fun acc id =>
      if getEntityByPrettyId s id = some entity then acc + biddingIdMatchPrice else acc)
    0

/-- The `components` reduce: component-presence weight per held component. -/
def concernComponentScore (s : ECSState) (entity : Nat) (components : List String) : Rat :=
  components.foldl
    (fun acc c => if entityHasComponent s entity c then acc + biddingComponentMatchPrice else acc)
    0

/-- One `props` entry's contribution: parse `"Component.prop"` (malformed or
unregistered entries are skipped with a warning), then compare the stored
field value strictly. -/
def propEntryScore (s : ECSState) (entity : Nat) (pm : PropMatcher) : Rat :=
  let parts := pm.prop.splitOn "."
  let componentName := parts.getD 0 ""
  let property := parts.getD 1 ""
  if componentName = "" ∨ property = "" then 0
  else if ¬ isComponent s componentName then 0
  else
    match getEntityComponentData s entity componentName with
    | none => 0
    | some componentData =>
        match JsMap.get componentData property with
        | none => 0
        | some v => if v = pm.value then biddingPropsMatchPrice else 0

/-- The `props` reduce. -/
def concernPropsScore (s : ECSState) (entity : Nat) (props : List PropMatcher) : Rat :=
  props.foldl (fun acc pm => acc + propEntryScore s entity pm) 0

/-- The `tags` reduce: tag weight per tag held. -/
def concernTagsScore (s : ECSState) (entity : Nat) (tags : List String) : Rat :=
  tags.foldl
    (fun acc tag => if entityHasTag s entity tag then acc + biddingTagsMatchPrice else acc)
    0

/-- Source `#calculateConcernSpecificity(entity, concern)`.  `-1` is the
`DISQUALIFIED` sentinel.  Note the asymmetry in the source: the `ids` guard
tests `concern.ids` (truthy for any present array, empty included) while the
other three guards test `concern.<cat>?.length` (present and non-empty). -/
def calculateConcernSpecificity (s : ECSState) (entity : Nat) (concern : LawConcern) : Rat :=
  let idScore := concernIdScore s entity (concern.ids.getD [])
  if concern.ids.isSome ∧ idScore = 0 then -1
  else
    let componentScore := concernComponentScore s entity (concern.components.getD [])
    if (concern.components.getD []) ≠ [] ∧ componentScore = 0 then -1
    else
      let propsScore := concernPropsScore s entity (concern.props.getD [])
      if (concern.props.getD []) ≠ [] ∧ propsScore = 0 then -1
      else
        let tagsScore := concernTagsScore s entity (concern.tags.getD [])
        if (concern.tags.getD []) ≠ [] ∧ tagsScore = 0 then -1
        else componentScore + propsScore + tagsScore + idScore

/-- All insertions of `x` into `l`, at index 0, 1, …, `l.length` — the inner
`splice` loop of the permutation generator. -/
def insertEverywhere (x : Nat) : List Nat → List (List Nat)
  | [] => [[x]]
  | y :: ys => (x :: y :: ys) :: (insertEverywhere x ys).map (fun p => y :: p)

/-- The permutation generator of `#calculateBid`: starts from `[[]]` and
threads every entity through `insertEverywhere`. -/
def jsPermutations (l : List Nat) : List (List Nat) :=
  l.foldl (fun perms entityId => perms.flatMap (insertEverywhere entityId)) [[]]

/-- The score of one permutation against the ordered concern list: positional
sum, a position contributing only when `permutation[concernIndex]` is truthy
(in bounds and a non-zero entity id). -/
def auxPermutationScore (s : ECSState) (auxConcerns : List LawConcern)
    (perm : List Nat) : Rat :=
  auxConcerns.enum.foldl
    (fun acc ic =>
      if perm.getD ic.1 0 ≠ 0 then
        acc + calculateConcernSpecificity s (perm.getD ic.1 0) ic.2
      else acc)
    0

/-- One update of the high-score scan: move only on a strictly greater
score. -/
def bestScanStep (best : Rat × Nat) (idxScore : Nat × Rat) : Rat × Nat :=
  if idxScore.2 > best.1 then (idxScore.2, idxScore.1) else best

/-- The high-score scan over the score map: starts from score 0 at index 0 and
moves only on a strictly greater score. -/
def bestPermutationScan (scores : List Rat) : Rat × Nat :=
  scores.enum.foldl bestScanStep (0, 0)

/-- The auxiliary part of one matcher in `#calculateBid`: score 0 (and the
untouched `auxiliary`) unless both the concern list and the auxiliary list are
non-empty, in which case the best-scoring generated permutation is selected. -/
def matcherAuxResult (s : ECSState) (intent : Intent) (m : LawMatcher) :
    Rat × Option (List Nat) :=
  match m.auxiliary, intent.auxiliary with
  | some auxConcerns, some auxiliary =>
      if auxConcerns ≠ [] ∧ auxiliary ≠ [] then
        let perms := jsPermutations auxiliary
        let scores := perms.map (auxPermutationScore s auxConcerns)
        let best := bestPermutationScan scores
        (best.1, some (perms.getD best.2 []))
      else (0, intent.auxiliary)
  | _, _ => (0, intent.auxiliary)

/-- Source `actor && actorConcern ? #calculateConcernSpecificity(actor, actorConcern)
: 0` (a 0 entity id is falsy in JS). -/
def matcherActorScore (s : ECSState) (intent : Intent) (m : LawMatcher) : Rat :=
  match intent.actor, m.actor with
  | some actor, some concern =>
      if actor ≠ 0 then calculateConcernSpecificity s actor concern else 0
  | _, _ => 0

/-- The target twin of `matcherActorScore`. -/
def matcherTargetScore (s : ECSState) (intent : Intent) (m : LawMatcher) : Rat :=
  match intent.target, m.target with
  | some target, some concern =>
      if target ≠ 0 then calculateConcernSpecificity s target concern else 0
  | _, _ => 0

/-- One pass of the `law.matchers.forEach` body of `#calculateBid`: a matcher
with a negative (`DISQUALIFIED`) actor / target / auxiliary score is skipped,
otherwise its total installs itself when it strictly beats the best so
far (or when there is no best yet). -/
def calcBidStep (s : ECSState) (law : Law) (intent : Intent)
    (best : Option LawBid) (m : LawMatcher) : Option LawBid :=
  let actorScore := matcherActorScore s intent m
  let targetScore := matcherTargetScore s intent m
  let aux := matcherAuxResult s intent m
  if actorScore < 0 ∨ targetScore < 0 ∨ aux.1 < 0 then best
  else
    let totalScore := actorScore + targetScore + aux.1
    match best with
    | none => some ⟨law, totalScore, aux.2⟩
    | some b => if totalScore > b.score then some ⟨law, totalScore, aux.2⟩ else some b

/-- Source `#calculateBid(law, intent)`: `null` unless the law handles the intent;
otherwise the matcher fold starting from `null`. -/
def calculateBid (s : ECSState) (law : Law) (intent : Intent) : Option LawBid :=
  if ¬ law.intents.contains intent.name then none
  else law.matchers.foldl (calcBidStep s law intent) none

/-- The bid comparator of `#auctionIntent` read as a `≤` test: the JS
comparator returns `bidB.law.layer - bidA.law.layer`, falling back to
`bidB.score - bidA.score`; `a` sorts no later than `b` exactly when that
value is `≤ 0`. -/
def bidLe (a b : LawBid) : Bool :=
  decide (b.law.layer.toNat < a.law.layer.toNat ∨
    (b.law.layer.toNat = a.law.layer.toNat ∧ b.score ≤ a.score))

/-- The sorted bid list of `#auctionIntent`: filter to laws handling the
intent, drop `null` bids, then the stable sort by the comparator. -/
def auctionBidList (s : ECSState) (laws : List Law) (intent : Intent) : List LawBid :=
  (((laws.filter (fun law => law.intents.contains intent.name)).filterMap
      (fun law => calculateBid s law intent)).mergeSort bidLe)

/-- The `LawContext` built for one bid inside the auction loop. -/
def mkLawContext (s : ECSState) (intent : Intent) (bid : LawBid) : LawContext :=
  { actor := intent.actor
    target := intent.target
    auxiliary := bid.reorderedAuxiliaries
    originalAuxiliaries := intent.auxiliary
    ecs := s }

/-- The contribution one bid's law returns when invoked by the loop. -/
def bidResult (s : ECSState) (intent : Intent) (bid : LawBid) : Contribution :=
  bid.law.apply (mkLawContext s intent bid)

/-- The contribution loop of `#auctionIntent` (`contributions` is the
accumulator): `REJECTED` throws the whole accumulated list away, `COMPLETED`
appends and stops, `PASS` appends and continues, exhaustion returns the
accumulator. -/
def auctionRunGo (s : ECSState) (intent : Intent) (acc : List Contribution) :
    List LawBid → List Contribution
  | [] => acc
  | bid :: rest =>
      let result := bidResult s intent bid
      if result.status = .rejected then []
      else if result.status = .completed then acc ++ [result]
      else auctionRunGo s intent (acc ++ [result]) rest

/-- The bids whose law `apply` is actually invoked by the loop: every bid up
to and including the first whose contribution is not `PASS`. -/
def auctionInvoked (s : ECSState) (intent : Intent) : List LawBid → List LawBid
  | [] => []
  | bid :: rest =>
      if (bidResult s intent bid).status = .pass then bid :: auctionInvoked s intent rest
      else [bid]

/-- Source `#auctionIntent(intent)`: sorted bids fed to the contribution loop. -/
def auctionIntent (s : ECSState) (laws : List Law) (intent : Intent) : List Contribution :=
  auctionRunGo s intent [] (auctionBidList s laws intent)

/-- Source `ratifyLaw(newLaw)`: insert or overwrite by name in the `#laws` map. -/
def ratifyLaw (laws : JsMap String Law) (newLaw : Law) : JsMap String Law :=
  JsMap.set laws newLaw.name newLaw

/-- Source `revokeLaw(name)`. -/
def revokeLaw (laws : JsMap String Law) (name : String) : JsMap String Law :=
  JsMap.del laws name

/-! ## Operation traces over the EntityStore -/

/-- One public EntityStore operation. -/
inductive EcsOp where
  | defineOp (name : String)
  | createOp (metaId : Option String)
  | setCompOp (entity : Nat) (name : String) (data : CompData)
  | updateCompOp (entity : Nat) (name : String) (data : CompData)
  | removeCompOp (entity : Nat) (name : String)
  | destroyOp (entity : Nat)
  | addTagOp (entity : Nat) (tag : String)
deriving DecidableEq, Repr

/-- Run one public operation.  Every `throw` in the source happens before any
write, so an operation that raises leaves the store exactly as it was; the
caller's state after a raising call is therefore the old state. -/
def applyOp (s : ECSState) : EcsOp → ECSState
  | .defineOp name => ((defineComponent s name).toOption).getD s
  | .createOp metaId => (((createEntity s metaId).toOption).map Prod.fst).getD s
  | .setCompOp e n d => ((setComponentOnEntity s e n d).toOption).getD s
  | .updateCompOp e n d => ((updateComponentData s e n d).toOption).getD s
  | .removeCompOp e n => removeComponentFromEntity s e n
  | .destroyOp e => destroyEntity s e
  | .addTagOp e t => addTagToEntity s e t

/-- Run a sequence of public operations. -/
def runOps (s : ECSState) : List EcsOp → ECSState
  | [] => s
  | op :: rest => runOps (applyOp s op) rest

/-- Whether an operation only writes component data for entities currently in
the active set (`true` for every operation that cannot attach data to an
arbitrary entity). -/
def opTargetsActive (s : ECSState) : EcsOp → Bool
  | .setCompOp e _ _ => s.activeEntities.contains e
  | .updateCompOp e _ _ => s.activeEntities.contains e
  | _ => true

/-- A trace in which every `set`/`update` targets an entity that is active at
the moment the operation runs. -/
def goodOps (s : ECSState) : List EcsOp → Bool
  | [] => true
  | op :: rest => opTargetsActive s op && goodOps (applyOp s op) rest

/-- The liveness relation between a component map and an active set: no store
holds an entry for an entity outside the set. -/
def invFor (comps : JsMap String (JsMap Nat CompData)) (active : List Nat) : Prop :=
  ∀ p ∈ comps, ∀ q ∈ p.2, q.1 ∈ active

/-- The spec's store-liveness invariant: a component store never holds an
entry for an entity absent from the Active Entity Set. -/
def storeInvariant (s : ECSState) : Prop :=
  invFor s.components s.activeEntities

/-- Well-formedness every reachable store satisfies: within each component
store the entity keys are distinct (JS `Map`s cannot hold a key twice). -/
def wfStores (s : ECSState) : Prop :=
  ∀ p ∈ s.components, (p.2.map Prod.fst).Nodup

/-! ## Derived views used to state the auction claims -/

/-- The total one matcher contributes when it survives: `none` when any of
its three scores is the `DISQUALIFIED` sentinel, its total otherwise. -/
def matcherSurvivingScore (s : ECSState) (intent : Intent) (m : LawMatcher) : Option Rat :=
  let actorScore := matcherActorScore s intent m
  let targetScore := matcherTargetScore s intent m
  let aux := matcherAuxResult s intent m
  if actorScore < 0 ∨ targetScore < 0 ∨ aux.1 < 0 then none
  else some (actorScore + targetScore + aux.1)

/-- The per-matcher totals `#calculateBid` actually keeps: matchers whose
actor, target or auxiliary score is the `DISQUALIFIED` sentinel are dropped,
the rest contribute `actorScore + targetScore + auxiliaryScore`. -/
def survivingMatcherScores (s : ECSState) (law : Law) (intent : Intent) : List Rat :=
  law.matchers.filterMap (matcherSurvivingScore s intent)

/-- The disqualification condition exactly as claim C6 words it: some
*populated* — present and non-empty — category (`ids`, `components`, `props`
or `tags`) has a matched-weight sum of zero.  Kept separate from the source
translation so the two can be compared. -/
def claimC6Disqualified (s : ECSState) (entity : Nat) (c : LawConcern) : Bool :=
  (match c.ids with
   | some l => decide (l ≠ []) && decide (concernIdScore s entity l = 0)
   | none => false) ||
  (match c.components with
   | some l => decide (l ≠ []) && decide (concernComponentScore s entity l = 0)
   | none => false) ||
  (match c.props with
   | some l => decide (l ≠ []) && decide (concernPropsScore s entity l = 0)
   | none => false) ||
  (match c.tags with
   | some l => decide (l ≠ []) && decide (concernTagsScore s entity l = 0)
   | none => false)

/-! ## Concrete worlds used by witnesses and counterexamples -/

/-- A store with two entities built through the public API: entity 1 carries
tag `sparkplug`, entity 2 carries tag `wrench`. -/
def exampleState : ECSState :=
  match createEntity initECS none with
  | .error _ => initECS
  | .ok r1 =>
      match createEntity r1.1 none with
      | .error _ => initECS
      | .ok r2 => addTagToEntity (addTagToEntity r2.1 1 "sparkplug") 2 "wrench"

/-- The matcher of the wrench/spark-plug example: auxiliary concerns
`[{tags:['wrench']}, {tags:['sparkplug']}]`. -/
def exampleMatcher : LawMatcher :=
  { auxiliary := some [{ tags := some ["wrench"] }, { tags := some ["sparkplug"] }] }

/-- The intent of the wrench/spark-plug example: the player supplies
`[spark_plug_entity, wrench_entity]`, i.e. `[1, 2]` in `exampleState`. -/
def exampleIntent : Intent :=
  { name := "fix", auxiliary := some [1, 2] }

/-- A matcher with a single auxiliary concern no entity of `exampleState`
satisfies (`tags:['a']`). -/
def unmatchableAuxMatcher : LawMatcher :=
  { auxiliary := some [{ tags := some ["a"] }] }

/-- An intent supplying only entity 1 as auxiliary. -/
def singleAuxIntent : Intent :=
  { name := "x", auxiliary := some [1] }

/-- The concern of the C6 counterexample: an `ids` field that is present but
empty, next to a tag entity 1 of `exampleState` does hold. -/
def emptyIdsConcern : LawConcern :=
  { ids := some [], tags := some ["sparkplug"] }

/-- The concern of the C6 example: `ids: ['king']` beside a tag the entity
holds. -/
def kingConcern : LawConcern :=
  { ids := some ["king"], tags := some ["sparkplug"] }

/-- A law answering every invocation with `PASS`. -/
def passLaw : Law :=
  { layer := .core, name := "passes", intents := ["go"], matchers := [{}],
    apply := fun _ => { status := .pass } }

/-- A law answering every invocation with `COMPLETED`. -/
def completeLaw : Law :=
  { layer := .stdLib, name := "completes", intents := ["go"], matchers := [{}],
    apply := fun _ => { status := .completed } }

/-- A law answering every invocation with `REJECTED`. -/
def rejectLaw : Law :=
  { layer := .domain, name := "rejects", intents := ["go"], matchers := [{}],
    apply := fun _ => { status := .rejected } }

/-- An intent the witness laws handle. -/
def goIntent : Intent := { name := "go" }

/-- Witness bids over the three laws. -/
def passBid : LawBid := { law := passLaw, score := 0, reorderedAuxiliaries := none }

def completeBid : LawBid := { law := completeLaw, score := 0, reorderedAuxiliaries := none }

def rejectBid : LawBid := { law := rejectLaw, score := 0, reorderedAuxiliaries := none }

/-- An `Instance`-layer law and a `Domain`-layer law for the ordering
example. -/
def instanceLaw : Law :=
  { layer := .instanceLayer, name := "boulder-trap", intents := ["go"], matchers := [{}],
    apply := fun _ => { status := .pass } }

def domainLaw : Law :=
  { layer := .domain, name := "cursed-item", intents := ["go"], matchers := [{}],
    apply := fun _ => { status := .pass } }

/-- A store exercising the falsy empty-string component name: `''` is
registered through `defineComponent` and entity 1 carries it. -/
def emptyNameState : ECSState :=
  match defineComponent initECS "" with
  | .error _ => initECS
  | .ok s0 =>
      match createEntity s0 none with
      | .error _ => initECS
      | .ok r =>
          match setComponentOnEntity r.1 1 "" [("x", Value.num 1)] with
          | .error _ => initECS
          | .ok s1 => s1

/-- An `Instance`-layer bid with score 0 and a `Domain`-layer bid with score
1000. -/
def instanceBid0 : LawBid := { law := instanceLaw, score := 0, reorderedAuxiliaries := none }

def domainBid1000 : LawBid := { law := domainLaw, score := 1000, reorderedAuxiliaries := none }

/-! ## Association-list facts -/

theorem JsMap.get_mem {α β : Type} [DecidableEq α] {m : JsMap α β} {k : α} {v : β}
    (h : JsMap.get m k = some v) : (k, v) ∈ m := by
  induction m with
  | nil => simp [JsMap.get] at h
  | cons p rest ih =>
      obtain ⟨a, b⟩ := p
      rw [JsMap.get] at h
      by_cases hk : a = k
      · simp only [if_pos hk, Option.some.injEq] at h
        simp [hk, h]
      · simp only [if_neg hk] at h
        exact List.mem_cons_of_mem _ (ih h)

theorem JsMap.mem_set {α β : Type} [DecidableEq α] {m : JsMap α β} {k : α} {v : β}
    {q : α × β} (h : q ∈ JsMap.set m k v) : q ∈ m ∨ q = (k, v) := by
  induction m with
  | nil =>
      rw [JsMap.set] at h
      right
      simpa using h
  | cons p rest ih =>
      obtain ⟨a, b⟩ := p
      rw [JsMap.set] at h
      by_cases hk : a = k
      · simp only [if_pos hk] at h
        rcases List.mem_cons.mp h with h | h
        · right; rw [h, hk]
        · left; exact List.mem_cons_of_mem _ h
      · simp only [if_neg hk] at h
        rcases List.mem_cons.mp h with h | h
        · left; simp [h]
        · rcases ih h with h' | h'
          · left; exact List.mem_cons_of_mem _ h'
          · right; exact h'

theorem JsMap.del_sublist {α β : Type} [DecidableEq α] (m : JsMap α β) (k : α) :
    (JsMap.del m k).Sublist m := by
  induction m with
  | nil => simp [JsMap.del]
  | cons p rest ih =>
      rw [JsMap.del]
      by_cases hk : p.1 = k
      · rw [if_pos hk]
        exact List.sublist_cons_self p rest
      · rw [if_neg hk]
        exact ih.cons₂ p

theorem JsMap.mem_del {α β : Type} [DecidableEq α] {m : JsMap α β} {k : α}
    {q : α × β} (h : q ∈ JsMap.del m k) : q ∈ m :=
  (JsMap.del_sublist m k).mem h

theorem JsMap.keys_set_subset {α β : Type} [DecidableEq α] (m : JsMap α β) (k : α) (v : β) :
    ∀ a ∈ (JsMap.set m k v).map Prod.fst, a ∈ m.map Prod.fst ∨ a = k := by
  intro a ha
  rcases List.mem_map.mp ha with ⟨q, hq, rfl⟩
  rcases JsMap.mem_set hq with h | h
  · left; exact List.mem_map_of_mem _ h
  · right; simp [h]

theorem JsMap.nodupKeys_set {α β : Type} [DecidableEq α] {m : JsMap α β} {k : α} {v : β}
    (h : (m.map Prod.fst).Nodup) : ((JsMap.set m k v).map Prod.fst).Nodup := by
  induction m with
  | nil => simp [JsMap.set]
  | cons p rest ih =>
      obtain ⟨a, b⟩ := p
      rw [JsMap.set]
      by_cases hk : a = k
      · simp only [if_pos hk]
        simpa using h
      · simp only [if_neg hk]
        simp only [List.map_cons, List.nodup_cons] at h ⊢
        refine ⟨fun hc => ?_, ih h.2⟩
        rcases JsMap.keys_set_subset rest k v a hc with h' | h'
        · exact h.1 h'
        · exact hk h'

theorem JsMap.nodupKeys_del {α β : Type} [DecidableEq α] {m : JsMap α β} {k : α}
    (h : (m.map Prod.fst).Nodup) : ((JsMap.del m k).map Prod.fst).Nodup :=
  h.sublist ((JsMap.del_sublist m k).map Prod.fst)

theorem JsMap.mem_del_ne_key {α β : Type} [DecidableEq α] {m : JsMap α β} {k : α}
    {q : α × β} (hn : (m.map Prod.fst).Nodup) (h : q ∈ JsMap.del m k) : q.1 ≠ k := by
  induction m with
  | nil => simp [JsMap.del] at h
  | cons p rest ih =>
      obtain ⟨a, b⟩ := p
      rw [JsMap.del] at h
      simp only [List.map_cons, List.nodup_cons] at hn
      by_cases hk : a = k
      · simp only [if_pos hk] at h
        intro hq
        apply hn.1
        have hm : q.1 ∈ rest.map Prod.fst := List.mem_map_of_mem Prod.fst h
        rwa [hq, ← hk] at hm
      · simp only [if_neg hk] at h
        rcases List.mem_cons.mp h with h | h
        · simpa [h] using hk
        · exact ih hn.2 h

theorem JsMap.get_isSome_iff_mem_keys {α β : Type} [DecidableEq α] (m : JsMap α β) (k : α) :
    (JsMap.get m k).isSome = true ↔ k ∈ m.map Prod.fst := by
  induction m with
  | nil => simp [JsMap.get]
  | cons p rest ih =>
      rw [JsMap.get]
      by_cases hk : p.1 = k
      · simp [hk]
      · simp [hk, ih, Ne.symm hk]

/-! ## C1 — the pretty-id index -/

/-- C1: the claimed injective round-trip of the pretty-id index fails on the
code.  Evaluating the store at the failing input: `createEntity('king')`
succeeds and returns entity 1, yet `getEntityByPrettyId('king')` finds
nothing, and a second `createEntity('king')` succeeds as well.  The source
never writes `#prettyIdMap` (its duplicate check and `getEntityByPrettyId`
read a map with no writer, and so are dead code), which contradicts the
evident purpose of that check — a missing
`this.#prettyIdMap.set(metaId, id)` in `createEntity`. -/
theorem c1_prettyId_roundTrip_codeBug :
    ((createEntity initECS (some "king")).toOption.map
      (fun r => (r.2, getEntityByPrettyId r.1 "king", (createEntity r.1 (some "king")).isOk)))
      = some (1, none, true) := by decide

/-! ## C9 — UnknownComponent raises-iff -/

/-- C9 (amended): `setComponentOnEntity` and `updateComponentData` raise
`UnknownComponent` exactly when the component name was never registered, the
error propagates to the caller and (as `applyOp` shows) the store is left
unchanged; but `removeComponentFromEntity` never raises — on an unregistered
name the `?.delete` optional chain silently returns with the store
unchanged. -/
theorem c9_unknownComponent_raisesIff (s : ECSState) (e : Nat) (c : String) (d : CompData) :
    (isComponent s c = false →
        setComponentOnEntity s e c d = .error (.unknownComponent c) ∧
        updateComponentData s e c d = .error (.unknownComponent c) ∧
        applyOp s (.setCompOp e c d) = s ∧
        applyOp s (.updateCompOp e c d) = s ∧
        removeComponentFromEntity s e c = s) ∧
    (isComponent s c = true →
        (setComponentOnEntity s e c d).isOk = true ∧
        (updateComponentData s e c d).isOk = true) := by
  constructor
  · intro h
    have hg : JsMap.get s.components c = none := by
      unfold isComponent JsMap.hasKey at h
      exact Option.not_isSome_iff_eq_none.mp (by simp [h])
    simp [setComponentOnEntity, updateComponentData, removeComponentFromEntity,
      applyOp, hg, Except.toOption]
  · intro h
    unfold isComponent JsMap.hasKey at h
    obtain ⟨store, hst⟩ := Option.isSome_iff_exists.mp h
    simp [setComponentOnEntity, updateComponentData, hst, Except.isOk, Except.toBool]

/-- C9 witness: the amended theorem applied to the fresh store and the
unregistered name `Foo`. -/
theorem c9_unknownComponent_raisesIff_witness :
    isComponent initECS "Foo" = false ∧
    (setComponentOnEntity initECS 1 "Foo" [] = .error (.unknownComponent "Foo") ∧
     updateComponentData initECS 1 "Foo" [] = .error (.unknownComponent "Foo") ∧
     applyOp initECS (.setCompOp 1 "Foo" []) = initECS ∧
     applyOp initECS (.updateCompOp 1 "Foo" []) = initECS ∧
     removeComponentFromEntity initECS 1 "Foo" = initECS) :=
  ⟨by decide, (c9_unknownComponent_raisesIff initECS 1 "Foo" []).1 (by decide)⟩

/-- C9 counterexample to the claim as stated: `removeComponentFromEntity`
applied to the never-registered name `Foo` raises nothing — it returns
normally with the store unchanged — where the claim demands an
`UnknownComponent` error; contrast with `setComponentOnEntity`, which does
fail there. -/
theorem c9_remove_unknown_counterexample :
    removeComponentFromEntity initECS 1 "Foo" = initECS ∧
    (setComponentOnEntity initECS 1 "Foo" []).isOk = false := by decide

/-! ## C7 — store liveness invariant -/

theorem invFor_mono_active {comps : JsMap String (JsMap Nat CompData)}
    {active active' : List Nat} (hinv : invFor comps active)
    (hsub : ∀ x ∈ active, x ∈ active') : invFor comps active' :=
  fun p hp q hq => hsub q.1 (hinv p hp q hq)

/-- Replacing (or adding) one store whose keys all lie in the active set
preserves the liveness relation. -/
theorem invFor_set {comps : JsMap String (JsMap Nat CompData)} {active : List Nat}
    {n : String} {newStore : JsMap Nat CompData}
    (hinv : invFor comps active) (hnew : ∀ q ∈ newStore, q.1 ∈ active) :
    invFor (JsMap.set comps n newStore) active := by
  intro p hp q hq
  rcases JsMap.mem_set hp with hp' | hp'
  · exact hinv p hp' q hq
  · rw [hp'] at hq
    exact hnew q hq

/-- Replacing (or adding) one store with distinct keys preserves store
well-formedness. -/
theorem wfKeys_set {comps : JsMap String (JsMap Nat CompData)}
    {n : String} {newStore : JsMap Nat CompData}
    (hwf : ∀ p ∈ comps, (p.2.map Prod.fst).Nodup)
    (hnew : (newStore.map Prod.fst).Nodup) :
    ∀ p ∈ JsMap.set comps n newStore, (p.2.map Prod.fst).Nodup := by
  intro p hp
  rcases JsMap.mem_set hp with hp' | hp'
  · exact hwf p hp'
  · rw [hp']
    exact hnew

/-- A successful `setComponentOnEntity` on an active entity preserves
well-formedness and the liveness invariant, and touches nothing but the
component map. -/
theorem setComponentOnEntity_ok_preserves {s : ECSState} {e : Nat} {n : String}
    {d : CompData} {s' : ECSState}
    (hwf : wfStores s) (hinv : storeInvariant s) (he : e ∈ s.activeEntities)
    (h : setComponentOnEntity s e n d = .ok s') :
    wfStores s' ∧ storeInvariant s' ∧ s'.activeEntities = s.activeEntities ∧
      s'.prettyIdMap = s.prettyIdMap ∧ s'.nextEntityId = s.nextEntityId := by
  unfold setComponentOnEntity at h
  cases hg : JsMap.get s.components n with
  | none => rw [hg] at h; cases h
  | some store =>
      rw [hg] at h
      cases h
      have hstore : (n, store) ∈ s.components := JsMap.get_mem hg
      refine ⟨?_, ?_, rfl, rfl, rfl⟩
      · exact wfKeys_set hwf (JsMap.nodupKeys_set (hwf _ hstore))
      · refine invFor_set hinv (fun q hq => ?_)
        rcases JsMap.mem_set hq with hq' | hq'
        · exact hinv _ hstore q hq'
        · rw [hq']
          exact he

/-- The `updateComponentData` twin of the preceding lemma. -/
theorem updateComponentData_ok_preserves {s : ECSState} {e : Nat} {n : String}
    {d : CompData} {s' : ECSState}
    (hwf : wfStores s) (hinv : storeInvariant s) (he : e ∈ s.activeEntities)
    (h : updateComponentData s e n d = .ok s') :
    wfStores s' ∧ storeInvariant s' ∧ s'.activeEntities = s.activeEntities := by
  unfold updateComponentData at h
  cases hg : JsMap.get s.components n with
  | none => rw [hg] at h; cases h
  | some store =>
      rw [hg] at h
      cases h
      have hstore : (n, store) ∈ s.components := JsMap.get_mem hg
      refine ⟨?_, ?_, rfl⟩
      · exact wfKeys_set hwf (JsMap.nodupKeys_set (hwf _ hstore))
      · refine invFor_set hinv (fun q hq => ?_)
        rcases JsMap.mem_set hq with hq' | hq'
        · exact hinv _ hstore q hq'
        · rw [hq']
          exact he

/-- A successful `createEntityBody` preserves well-formedness and the
liveness invariant (the fresh id joins the active set before its bootstrap
components are written). -/
theorem createEntityBody_ok_preserves {s : ECSState} {mid : Option String}
    {r : ECSState × Nat}
    (hwf : wfStores s) (hinv : storeInvariant s)
    (h : createEntityBody s mid = .ok r) : wfStores r.1 ∧ storeInvariant r.1 := by
  unfold createEntityBody at h
  simp only at h
  have hmem₂ : s.nextEntityId ∈
      (if s.activeEntities.contains s.nextEntityId then s.activeEntities
       else s.activeEntities ++ [s.nextEntityId]) := by
    by_cases hc : s.activeEntities.contains s.nextEntityId
    · rw [if_pos hc]
      simpa using hc
    · rw [if_neg hc]
      simp
  have hsub₂ : ∀ x ∈ s.activeEntities,
      x ∈ (if s.activeEntities.contains s.nextEntityId then s.activeEntities
           else s.activeEntities ++ [s.nextEntityId]) := by
    intro x hx
    by_cases hc : s.activeEntities.contains s.nextEntityId
    · rw [if_pos hc]; exact hx
    · rw [if_neg hc]; exact List.mem_append_left _ hx
  split at h
  · cases h
  · rename_i s₃ h₃
    split at h
    · cases h
    · rename_i s₄ h₄
      cases h
      obtain ⟨hwf₃, hinv₃, hact₃, -, -⟩ :=
        setComponentOnEntity_ok_preserves
          (s := { nextEntityId := s.nextEntityId + 1
                  activeEntities :=
                    if s.activeEntities.contains s.nextEntityId then s.activeEntities
                    else s.activeEntities ++ [s.nextEntityId]
                  components := s.components
                  prettyIdMap := s.prettyIdMap })
          hwf (invFor_mono_active hinv hsub₂) hmem₂ h₃
      have hmem₃ : s.nextEntityId ∈ s₃.activeEntities := by
        rw [hact₃]; exact hmem₂
      obtain ⟨hwf₄, hinv₄, -, -, -⟩ :=
        setComponentOnEntity_ok_preserves hwf₃ hinv₃ hmem₃ h₄
      exact ⟨hwf₄, hinv₄⟩

/-- A successful `createEntity` preserves well-formedness and the liveness
invariant. -/
theorem createEntity_ok_preserves {s : ECSState} {mid : Option String}
    {r : ECSState × Nat}
    (hwf : wfStores s) (hinv : storeInvariant s)
    (h : createEntity s mid = .ok r) : wfStores r.1 ∧ storeInvariant r.1 := by
  unfold createEntity at h
  cases mid with
  | none => exact createEntityBody_ok_preserves hwf hinv h
  | some m =>
      simp only at h
      by_cases hdup : m ≠ "" ∧ JsMap.hasKey s.prettyIdMap m = true
      · rw [if_pos hdup] at h
        cases h
      · rw [if_neg hdup] at h
        exact createEntityBody_ok_preserves hwf hinv h

/-- One public operation run under the active-target condition preserves
well-formedness and the liveness invariant. -/
theorem applyOp_preserves (s : ECSState) (op : EcsOp)
    (hwf : wfStores s) (hinv : storeInvariant s) (hok : opTargetsActive s op = true) :
    wfStores (applyOp s op) ∧ storeInvariant (applyOp s op) := by
  cases op with
  | defineOp name =>
      show wfStores ((defineComponent s name).toOption.getD s) ∧
        storeInvariant ((defineComponent s name).toOption.getD s)
      unfold defineComponent
      by_cases hc : JsMap.hasKey s.components name
      · rw [if_pos hc]
        exact ⟨hwf, hinv⟩
      · rw [if_neg hc]
        exact ⟨wfKeys_set hwf (by simp),
          invFor_set hinv (fun q hq => absurd hq (List.not_mem_nil q))⟩
  | createOp metaId =>
      show wfStores (((createEntity s metaId).toOption.map Prod.fst).getD s) ∧
        storeInvariant (((createEntity s metaId).toOption.map Prod.fst).getD s)
      cases hc : createEntity s metaId with
      | error err => exact ⟨hwf, hinv⟩
      | ok r => exact createEntity_ok_preserves hwf hinv hc
  | setCompOp e n d =>
      have he : e ∈ s.activeEntities := by
        simpa [opTargetsActive] using hok
      show wfStores ((setComponentOnEntity s e n d).toOption.getD s) ∧
        storeInvariant ((setComponentOnEntity s e n d).toOption.getD s)
      cases hc : setComponentOnEntity s e n d with
      | error err => exact ⟨hwf, hinv⟩
      | ok s' =>
          obtain ⟨h1, h2, -, -, -⟩ := setComponentOnEntity_ok_preserves hwf hinv he hc
          exact ⟨h1, h2⟩
  | updateCompOp e n d =>
      have he : e ∈ s.activeEntities := by
        simpa [opTargetsActive] using hok
      show wfStores ((updateComponentData s e n d).toOption.getD s) ∧
        storeInvariant ((updateComponentData s e n d).toOption.getD s)
      cases hc : updateComponentData s e n d with
      | error err => exact ⟨hwf, hinv⟩
      | ok s' =>
          obtain ⟨h1, h2, -⟩ := updateComponentData_ok_preserves hwf hinv he hc
          exact ⟨h1, h2⟩
  | removeCompOp e n =>
      show wfStores (removeComponentFromEntity s e n) ∧
        storeInvariant (removeComponentFromEntity s e n)
      unfold removeComponentFromEntity
      cases hg : JsMap.get s.components n with
      | none => exact ⟨hwf, hinv⟩
      | some store =>
          have hstore : (n, store) ∈ s.components := JsMap.get_mem hg
          exact ⟨wfKeys_set hwf (JsMap.nodupKeys_del (hwf _ hstore)),
            invFor_set hinv (fun q hq => hinv _ hstore q (JsMap.mem_del hq))⟩
  | destroyOp e =>
      show wfStores (destroyEntity s e) ∧ storeInvariant (destroyEntity s e)
      constructor
      · intro p hp
        rcases List.mem_map.mp hp with ⟨kv, hkv, rfl⟩
        exact JsMap.nodupKeys_del (hwf kv hkv)
      · intro p hp q hq
        rcases List.mem_map.mp hp with ⟨kv, hkv, rfl⟩
        have hq' : q ∈ kv.2 := JsMap.mem_del hq
        have hne : q.1 ≠ e := JsMap.mem_del_ne_key (hwf kv hkv) hq
        exact List.mem_filter.mpr ⟨hinv kv hkv q hq', by simpa using hne⟩
  | addTagOp e t =>
      show wfStores (addTagToEntity s e t) ∧ storeInvariant (addTagToEntity s e t)
      unfold addTagToEntity
      split
      · exact ⟨hwf, hinv⟩
      · rename_i store hg
        split
        · exact ⟨hwf, hinv⟩
        · rename_i tagData hd
          have hstore : ("Tags", store) ∈ s.components := JsMap.get_mem hg
          have he : e ∈ s.activeEntities :=
            hinv _ hstore (e, tagData) (JsMap.get_mem hd)
          refine ⟨wfKeys_set hwf (JsMap.nodupKeys_set (hwf _ hstore)),
            invFor_set hinv (fun q hq => ?_)⟩
          rcases JsMap.mem_set hq with hq' | hq'
          · exact hinv _ hstore q hq'
          · rw [hq']
            exact he

/-- Good traces preserve the liveness invariant from any well-formed
invariant-satisfying state. -/
theorem runOps_storeInvariant : ∀ (ops : List EcsOp) (s : ECSState),
    wfStores s → storeInvariant s → goodOps s ops = true →
    wfStores (runOps s ops) ∧ storeInvariant (runOps s ops) := by
  intro ops
  induction ops with
  | nil => intro s hwf hinv _; exact ⟨hwf, hinv⟩
  | cons op rest ih =>
      intro s hwf hinv hgood
      rw [goodOps, Bool.and_eq_true] at hgood
      obtain ⟨h1, h2⟩ := applyOp_preserves s op hwf hinv hgood.1
      exact ih (applyOp s op) h1 h2 hgood.2

theorem wfStores_initECS : wfStores initECS := by
  intro p hp
  simp only [initECS, List.mem_cons, List.not_mem_nil, or_false] at hp
  rcases hp with rfl | rfl <;> simp

theorem storeInvariant_initECS : storeInvariant initECS := by
  intro p hp q hq
  simp only [initECS, List.mem_cons, List.not_mem_nil, or_false] at hp
  rcases hp with rfl | rfl <;> cases hq

/-- C7 (amended): the liveness invariant — no component store holds an entry
for an entity outside the Active Entity Set — holds after every sequence of
public operations *provided* each `setComponentOnEntity` /
`updateComponentData` call targets an entity active at the moment it runs.
The unrestricted claim fails because those two writes never check the active
set (see the counterexample). -/
theorem c7_store_liveness_amended (ops : List EcsOp)
    (h : goodOps initECS ops = true) : storeInvariant (runOps initECS ops) :=
  (runOps_storeInvariant ops initECS wfStores_initECS storeInvariant_initECS h).2

/-- C7 witness: a define / create / set trace targeting the live entity 1. -/
theorem c7_store_liveness_amended_witness :
    goodOps initECS
      [EcsOp.defineOp "pos", EcsOp.createOp none,
       EcsOp.setCompOp 1 "pos" [("x", Value.num 1)]] = true ∧
    storeInvariant (runOps initECS
      [EcsOp.defineOp "pos", EcsOp.createOp none,
       EcsOp.setCompOp 1 "pos" [("x", Value.num 1)]]) :=
  ⟨by decide,
   c7_store_liveness_amended
     [EcsOp.defineOp "pos", EcsOp.createOp none,
      EcsOp.setCompOp 1 "pos" [("x", Value.num 1)]] (by decide)⟩

/-- C7 counterexample to the claim as stated: on a fresh store the single
public call `setComponentOnEntity(1, 'Tags', …)` succeeds and leaves the
`Tags` store holding an entry for entity 1 while the Active Entity Set does
not contain 1. -/
theorem c7_liveness_counterexample :
    ((setComponentOnEntity initECS 1 "Tags" emptyTagsData).toOption.map
      (fun s => (entityHasComponent s 1 "Tags", s.activeEntities.contains 1)))
      = some (true, false) := by decide

/-! ## C10 — composition query -/

theorem entityHasComponent_iff {s : ECSState} {e : Nat} {c : String} :
    entityHasComponent s e c = true ↔
      ∃ store, JsMap.get s.components c = some store ∧ JsMap.hasKey store e = true := by
  unfold entityHasComponent
  cases hg : JsMap.get s.components c with
  | none => simp
  | some store => simp

/-- The membership characterization of the composition query over non-empty
(truthy) component names: an entity is returned exactly when the request is
non-empty and every requested store holds it. -/
theorem mem_getEntitiesByComponents (s : ECSState) (ts : List String) (e : Nat)
    (hne : ∀ c ∈ ts, c ≠ "") :
    e ∈ getEntitiesByComponents s ts ↔
      (ts ≠ [] ∧ ∀ c ∈ ts, entityHasComponent s e c = true) := by
  unfold getEntitiesByComponents
  by_cases hts : ts = []
  · simp [hts]
  · rw [if_neg hts]
    have hperm : (ts.mergeSort (fun a b => storeSizeOf s a ≤ storeSizeOf s b)).Perm ts :=
      List.mergeSort_perm ts _
    split
    · rename_i hsort
      have h0 : ([] : List String).Perm ts := hsort ▸ hperm
      exact absurd h0.symm.eq_nil hts
    · rename_i smallest rest hsort
      have hperm' : (smallest :: rest).Perm ts := hsort ▸ hperm
      have hsm : smallest ∈ ts := hperm'.mem_iff.mp (List.mem_cons_self smallest rest)
      rw [if_neg (hne smallest hsm)]
      split
      · rename_i hg
        simp only [List.not_mem_nil, false_iff, not_and]
        intro _ hall
        have hhas := hall smallest hsm
        rw [entityHasComponent_iff] at hhas
        rcases hhas with ⟨store, hstore, -⟩
        rw [hg] at hstore
        cases hstore
      · rename_i store hg
        by_cases hsz : JsMap.size store = 0
        · rw [if_pos hsz]
          have hnil : store = [] := List.length_eq_zero.mp hsz
          simp only [List.not_mem_nil, false_iff, not_and]
          intro _ hall
          have hhas := hall smallest hsm
          rw [entityHasComponent_iff] at hhas
          rcases hhas with ⟨store', hstore', hkey⟩
          rw [hg] at hstore'
          cases hstore'
          rw [hnil] at hkey
          cases hkey
        · rw [if_neg hsz]
          constructor
          · intro he
            rcases List.mem_filter.mp he with ⟨hkeys, hall⟩
            refine ⟨hts, fun c hc => ?_⟩
            rcases List.mem_cons.mp (hperm'.mem_iff.mpr hc) with rfl | hcr
            · rw [entityHasComponent_iff]
              exact ⟨store, hg, (JsMap.get_isSome_iff_mem_keys store e).mpr hkeys⟩
            · exact List.all_eq_true.mp hall c hcr
          · rintro ⟨-, hall⟩
            apply List.mem_filter.mpr
            have hhs := hall smallest hsm
            rw [entityHasComponent_iff] at hhs
            rcases hhs with ⟨store', hstore', hkey⟩
            rw [hg] at hstore'
            cases hstore'
            refine ⟨(JsMap.get_isSome_iff_mem_keys store e).mp hkey, ?_⟩
            exact List.all_eq_true.mpr
              (fun c hc => hall c (hperm'.mem_iff.mp (List.mem_cons_of_mem _ hc)))

/-- C10 (amended): over registered *non-empty* component names the
composition query returns, as a set, exactly the entities present in every
requested store; the returned set does not depend on the order of the
arguments; no arguments give the empty list; and an argument whose store is
unpopulated (or unregistered, whose size reads as 0) forces the empty list.
For the falsy empty-string name the `if (!smallestType)` guard can return
`[]` even though its store is populated (see the counterexample). -/
theorem c10_composition_query (s : ECSState) (ts ts' : List String)
    (hne : ∀ c ∈ ts, c ≠ "") :
    (ts = [] → getEntitiesByComponents s ts = []) ∧
    (∀ e, e ∈ getEntitiesByComponents s ts ↔
       (ts ≠ [] ∧ ∀ c ∈ ts, entityHasComponent s e c = true)) ∧
    (ts'.Perm ts →
       ∀ e, e ∈ getEntitiesByComponents s ts' ↔ e ∈ getEntitiesByComponents s ts) ∧
    (∀ c ∈ ts, storeSizeOf s c = 0 → getEntitiesByComponents s ts = []) := by
  refine ⟨fun h => by simp [getEntitiesByComponents, h],
    fun e => mem_getEntitiesByComponents s ts e hne, fun hp e => ?_, fun c hc hz => ?_⟩
  · rw [mem_getEntitiesByComponents s ts' e (fun x hx => hne x (hp.mem_iff.mp hx)),
      mem_getEntitiesByComponents s ts e hne]
    constructor
    · rintro ⟨hn, hall⟩
      refine ⟨fun h => ?_, fun x hx => hall x (hp.mem_iff.mpr hx)⟩
      subst h
      exact hn hp.eq_nil
    · rintro ⟨hn, hall⟩
      refine ⟨fun h => ?_, fun x hx => hall x (hp.mem_iff.mp hx)⟩
      subst h
      exact hn hp.symm.eq_nil
  · rw [List.eq_nil_iff_forall_not_mem]
    intro e he
    rcases (mem_getEntitiesByComponents s ts e hne).mp he with ⟨-, hall⟩
    have hhas := hall c hc
    rw [entityHasComponent_iff] at hhas
    rcases hhas with ⟨store, hstore, hkey⟩
    have : storeSizeOf s c = store.length := by
      unfold storeSizeOf
      rw [hstore]
      rfl
    rw [this] at hz
    rw [List.length_eq_zero.mp hz] at hkey
    cases hkey

/-- C10 witness: the query on `exampleState` (both entities carry `Tags`),
applying the theorem at a permuted pair of non-empty names. -/
theorem c10_composition_query_witness :
    (∀ c ∈ (["Tags", "Meta"] : List String), c ≠ "") ∧
    (["Meta", "Tags"] : List String).Perm ["Tags", "Meta"] ∧
    (∀ e, e ∈ getEntitiesByComponents exampleState ["Meta", "Tags"] ↔
       e ∈ getEntitiesByComponents exampleState ["Tags", "Meta"]) :=
  ⟨by decide, by decide,
   (c10_composition_query exampleState ["Tags", "Meta"] ["Meta", "Tags"]
     (by decide)).2.2.1 (by decide)⟩

/-- C10 counterexample to the claim as stated: register the empty-string
component name, create entity 1 and give it that component — the store is
populated and entity 1 is present in it, yet `getEntitiesByComponents('')`
returns the empty list: the source's `if (!smallestType)` guard also fires
for the falsy empty-string name. -/
theorem c10_composition_query_counterexample :
    getEntitiesByComponents emptyNameState [""] = [] ∧
    isComponent emptyNameState "" = true ∧
    entityHasComponent emptyNameState 1 "" = true ∧
    storeSizeOf emptyNameState "" = 1 := by
  with_unfolding_all decide

/-! ## C2 — the contribution loop's three-state protocol -/

/-- A `PASS` prefix is appended to the accumulator and the loop continues on
the remainder. -/
theorem auctionRunGo_passWalk (s : ECSState) (intent : Intent)
    (l₁ rest : List LawBid)
    (hpass : ∀ b ∈ l₁, (bidResult s intent b).status = .pass) :
    ∀ acc, auctionRunGo s intent acc (l₁ ++ rest) =
      auctionRunGo s intent (acc ++ l₁.map (bidResult s intent)) rest := by
  induction l₁ with
  | nil => intro acc; simp
  | cons b l ih =>
      intro acc
      have hb : (bidResult s intent b).status = .pass :=
        hpass b (List.mem_cons_self b l)
      rw [List.cons_append, auctionRunGo, hb]
      simp only [reduceCtorEq, if_false]
      rw [ih (fun x hx => hpass x (List.mem_cons_of_mem b hx))]
      simp

/-- A `PASS` prefix is walked through by the invocation tracker. -/
theorem auctionInvoked_passWalk (s : ECSState) (intent : Intent)
    (l₁ rest : List LawBid)
    (hpass : ∀ b ∈ l₁, (bidResult s intent b).status = .pass) :
    auctionInvoked s intent (l₁ ++ rest) = l₁ ++ auctionInvoked s intent rest := by
  induction l₁ with
  | nil => simp
  | cons b l ih =>
      have hb : (bidResult s intent b).status = .pass :=
        hpass b (List.mem_cons_self b l)
      rw [List.cons_append, auctionInvoked, hb]
      simp only [if_pos rfl]
      rw [ih (fun x hx => hpass x (List.mem_cons_of_mem b hx))]
      simp

/-- C2 (confirmed): walking the sorted bid list in order, an all-`PASS` list
is returned whole with every bid invoked; after a `PASS` prefix, a
`COMPLETED` bid makes the loop return exactly the prefix contributions plus
its own, invoking nothing after it; a `REJECTED` bid makes the loop discard
the whole accumulated list and return the empty list, again invoking nothing
after it. -/
theorem c2_pipeline_three_state_protocol (s : ECSState) (intent : Intent)
    (bids : List LawBid) :
    ((∀ b ∈ bids, (bidResult s intent b).status = .pass) →
       auctionRunGo s intent [] bids = bids.map (bidResult s intent) ∧
       auctionInvoked s intent bids = bids) ∧
    (∀ l₁ bid l₂, bids = l₁ ++ bid :: l₂ →
       (∀ b ∈ l₁, (bidResult s intent b).status = .pass) →
       ((bidResult s intent bid).status = .completed →
          auctionRunGo s intent [] bids = (l₁ ++ [bid]).map (bidResult s intent) ∧
          auctionInvoked s intent bids = l₁ ++ [bid]) ∧
       ((bidResult s intent bid).status = .rejected →
          auctionRunGo s intent [] bids = [] ∧
          auctionInvoked s intent bids = l₁ ++ [bid])) := by
  constructor
  · intro hpass
    constructor
    · have h := auctionRunGo_passWalk s intent bids [] hpass []
      simpa [auctionRunGo] using h
    · have h := auctionInvoked_passWalk s intent bids [] hpass
      simpa [auctionInvoked] using h
  · intro l₁ bid l₂ hbids hpass
    subst hbids
    constructor
    · intro hc
      constructor
      · rw [auctionRunGo_passWalk s intent l₁ (bid :: l₂) hpass []]
        rw [auctionRunGo, hc]
        simp
      · rw [auctionInvoked_passWalk s intent l₁ (bid :: l₂) hpass]
        rw [auctionInvoked, hc]
        simp
    · intro hr
      constructor
      · rw [auctionRunGo_passWalk s intent l₁ (bid :: l₂) hpass []]
        rw [auctionRunGo, hr]
        simp
      · rw [auctionInvoked_passWalk s intent l₁ (bid :: l₂) hpass]
        rw [auctionInvoked, hr]
        simp

/-- C2 witness: a `PASS` law, then a `COMPLETED` law, then a law that is
never reached — the loop returns exactly the first two contributions and
invokes exactly the first two bids. -/
theorem c2_pipeline_three_state_protocol_witness :
    auctionRunGo exampleState goIntent [] [passBid, completeBid, rejectBid] =
      ([passBid, completeBid].map (bidResult exampleState goIntent)) ∧
    auctionInvoked exampleState goIntent [passBid, completeBid, rejectBid] =
      [passBid, completeBid] :=
  (((c2_pipeline_three_state_protocol exampleState goIntent
      [passBid, completeBid, rejectBid]).2
      [passBid] completeBid [rejectBid] rfl (by decide)).1 (by decide))

/-! ## C3 — bid ordering -/

theorem bidLe_total (a b : LawBid) : (bidLe a b || bidLe b a) = true := by
  simp only [bidLe, Bool.or_eq_true, decide_eq_true_eq]
  rcases Nat.lt_trichotomy a.law.layer.toNat b.law.layer.toNat with h | h | h
  · right; left; exact h
  · rcases le_total b.score a.score with hs | hs
    · left; right; exact ⟨h.symm, hs⟩
    · right; right; exact ⟨h, hs⟩
  · left; left; exact h

theorem bidLe_trans (a b c : LawBid)
    (h1 : bidLe a b = true) (h2 : bidLe b c = true) : bidLe a c = true := by
  simp only [bidLe, decide_eq_true_eq] at h1 h2 ⊢
  rcases h1 with h1 | ⟨h1e, h1s⟩
  · rcases h2 with h2 | ⟨h2e, h2s⟩
    · left; exact h2.trans h1
    · left; rw [h2e]; exact h1
  · rcases h2 with h2 | ⟨h2e, h2s⟩
    · left; rw [← h1e]; exact h2
    · right; exact ⟨h2e.trans h1e, h2s.trans h1s⟩

/-- C3 (confirmed): `#auctionIntent`'s bid list is sorted by the comparator
`(layer descending, then score descending)` — layer strictly dominating, as
the `Instance`-score-0 versus `Domain`-score-1000 conjunct shows — it is a
permutation of the unsorted candidate bids, and bids with identical
`(layer, score)` keep their relative registry order: filtering either list to
one key yields identical lists (JS `Array.prototype.sort` is stable, modelled
by `mergeSort`). -/
theorem c3_bid_ordering (s : ECSState) (laws : List Law) (intent : Intent) :
    List.Pairwise (fun a b => bidLe a b = true) (auctionBidList s laws intent) ∧
    (auctionBidList s laws intent).Perm
      ((laws.filter (fun law => law.intents.contains intent.name)).filterMap
        (fun law => calculateBid s law intent)) ∧
    (∀ (lt : Nat) (q : Rat),
       (auctionBidList s laws intent).filter
         (fun b => decide (b.law.layer.toNat = lt ∧ b.score = q)) =
       ((laws.filter (fun law => law.intents.contains intent.name)).filterMap
         (fun law => calculateBid s law intent)).filter
         (fun b => decide (b.law.layer.toNat = lt ∧ b.score = q))) ∧
    (∀ a b : LawBid, a.law.layer = .instanceLayer → b.law.layer = .domain →
       a.score = 0 → b.score = 1000 → bidLe a b = true ∧ bidLe b a = false) := by
  refine ⟨List.sorted_mergeSort bidLe_trans bidLe_total _,
    List.mergeSort_perm _ bidLe, fun lt q => ?_, fun a b ha hb h0 h1000 => ?_⟩
  · set pre := ((laws.filter (fun law => law.intents.contains intent.name)).filterMap
      (fun law => calculateBid s law intent)) with hpre
    set p : LawBid → Bool := fun b => decide (b.law.layer.toNat = lt ∧ b.score = q) with hp
    have hpw : List.Pairwise (fun a b => bidLe a b = true) (pre.filter p) := by
      refine List.pairwise_of_forall_mem_list (fun a ha b hb => ?_)
      have ha' := of_decide_eq_true (List.mem_filter.mp ha).2
      have hb' := of_decide_eq_true (List.mem_filter.mp hb).2
      simp only [bidLe, decide_eq_true_eq]
      right
      rw [ha'.1, hb'.1, ha'.2, hb'.2]
      exact ⟨rfl, le_refl q⟩
    have hsl : (pre.filter p).Sublist (pre.mergeSort bidLe) :=
      List.sublist_mergeSort bidLe_trans bidLe_total hpw (List.filter_sublist pre)
    have hsl2 : (pre.filter p).Sublist ((pre.mergeSort bidLe).filter p) := by
      have h1 := hsl.filter p
      rwa [List.filter_eq_self.mpr (fun a ha => (List.mem_filter.mp ha).2)] at h1
    have hperm2 : ((pre.mergeSort bidLe).filter p).Perm (pre.filter p) :=
      (List.mergeSort_perm pre bidLe).filter p
    exact (hsl2.eq_of_length hperm2.length_eq.symm).symm
  · constructor
    · simp [bidLe, ha, hb, LawLayer.toNat]
    · simp [bidLe, ha, hb, LawLayer.toNat]

/-- C3 witness: the layer-dominance conjunct applied to the concrete
`Instance`-layer bid with score 0 and `Domain`-layer bid with score 1000. -/
theorem c3_bid_ordering_witness :
    bidLe instanceBid0 domainBid1000 = true ∧ bidLe domainBid1000 instanceBid0 = false :=
  (c3_bid_ordering exampleState [] goIntent).2.2.2 instanceBid0 domainBid1000
    rfl rfl rfl rfl

/-! ## C5 — matcher aggregation -/

/-- Matcher fold from an installed best bid of this law: the result is a bid
of this law whose score is the installed score or a surviving total, at least
the installed score, and at least every surviving total. -/
theorem calcBid_foldl_some (s : ECSState) (law : Law) (intent : Intent) :
    ∀ (ms : List LawMatcher) (b0 : LawBid), b0.law = law →
    ∃ bid, ms.foldl (calcBidStep s law intent) (some b0) = some bid ∧ bid.law = law ∧
      (bid.score = b0.score ∨ bid.score ∈ ms.filterMap (matcherSurvivingScore s intent)) ∧
      b0.score ≤ bid.score ∧
      (∀ t ∈ ms.filterMap (matcherSurvivingScore s intent), t ≤ bid.score) := by
  intro ms
  induction ms with
  | nil =>
      intro b0 hb0
      exact ⟨b0, rfl, hb0, Or.inl rfl, le_refl _, by simp⟩
  | cons m rest ih =>
      intro b0 hb0
      by_cases hd : matcherActorScore s intent m < 0 ∨ matcherTargetScore s intent m < 0 ∨
          (matcherAuxResult s intent m).1 < 0
      · rw [List.foldl_cons]
        rw [show calcBidStep s law intent (some b0) m = some b0 by
          simp only [calcBidStep, if_pos hd]]
        rw [show (m :: rest).filterMap (matcherSurvivingScore s intent) =
            rest.filterMap (matcherSurvivingScore s intent) by
          simp only [List.filterMap_cons, matcherSurvivingScore, if_pos hd]]
        exact ih b0 hb0
      · have hsurv : (m :: rest).filterMap (matcherSurvivingScore s intent) =
            (matcherActorScore s intent m + matcherTargetScore s intent m +
              (matcherAuxResult s intent m).1) ::
            rest.filterMap (matcherSurvivingScore s intent) := by
          simp only [List.filterMap_cons, matcherSurvivingScore, if_neg hd]
        rw [List.foldl_cons, hsurv]
        by_cases hgt : matcherActorScore s intent m + matcherTargetScore s intent m +
            (matcherAuxResult s intent m).1 > b0.score
        · rw [show calcBidStep s law intent (some b0) m =
              some ⟨law, matcherActorScore s intent m + matcherTargetScore s intent m +
                (matcherAuxResult s intent m).1, (matcherAuxResult s intent m).2⟩ by
            simp only [calcBidStep, if_neg hd, if_pos hgt]]
          obtain ⟨bid, heq, hlaw, hmem, hle, hub⟩ :=
            ih ⟨law, matcherActorScore s intent m + matcherTargetScore s intent m +
              (matcherAuxResult s intent m).1, (matcherAuxResult s intent m).2⟩ rfl
          refine ⟨bid, heq, hlaw, ?_, ?_, ?_⟩
          · rcases hmem with h | h
            · exact Or.inr (h ▸ List.mem_cons_self _ _)
            · exact Or.inr (List.mem_cons_of_mem _ h)
          · exact le_of_lt (lt_of_lt_of_le hgt hle)
          · intro t ht
            rcases List.mem_cons.mp ht with rfl | ht'
            · exact hle
            · exact hub t ht'
        · rw [show calcBidStep s law intent (some b0) m = some b0 by
            simp only [calcBidStep, if_neg hd, if_neg hgt]]
          obtain ⟨bid, heq, hlaw, hmem, hle, hub⟩ := ih b0 hb0
          refine ⟨bid, heq, hlaw, ?_, hle, ?_⟩
          · rcases hmem with h | h
            · exact Or.inl h
            · exact Or.inr (List.mem_cons_of_mem _ h)
          · intro t ht
            rcases List.mem_cons.mp ht with rfl | ht'
            · exact le_trans (le_of_not_lt hgt) hle
            · exact hub t ht'

/-- Matcher fold from `null`: `null` exactly when no matcher survives, and
otherwise a bid of this law whose score is a surviving total bounding all
surviving totals. -/
theorem calcBid_foldl_none (s : ECSState) (law : Law) (intent : Intent) :
    ∀ (ms : List LawMatcher),
    (ms.foldl (calcBidStep s law intent) none = none ↔
      ms.filterMap (matcherSurvivingScore s intent) = []) ∧
    (∀ bid, ms.foldl (calcBidStep s law intent) none = some bid →
      bid.law = law ∧ bid.score ∈ ms.filterMap (matcherSurvivingScore s intent) ∧
      (∀ t ∈ ms.filterMap (matcherSurvivingScore s intent), t ≤ bid.score)) := by
  intro ms
  induction ms with
  | nil => exact ⟨by simp, fun bid h => by cases h⟩
  | cons m rest ih =>
      by_cases hd : matcherActorScore s intent m < 0 ∨ matcherTargetScore s intent m < 0 ∨
          (matcherAuxResult s intent m).1 < 0
      · rw [List.foldl_cons,
          show calcBidStep s law intent none m = none by
            simp only [calcBidStep, if_pos hd],
          show (m :: rest).filterMap (matcherSurvivingScore s intent) =
              rest.filterMap (matcherSurvivingScore s intent) by
            simp only [List.filterMap_cons, matcherSurvivingScore, if_pos hd]]
        exact ih
      · have hsurv : (m :: rest).filterMap (matcherSurvivingScore s intent) =
            (matcherActorScore s intent m + matcherTargetScore s intent m +
              (matcherAuxResult s intent m).1) ::
            rest.filterMap (matcherSurvivingScore s intent) := by
          simp only [List.filterMap_cons, matcherSurvivingScore, if_neg hd]
        rw [List.foldl_cons, hsurv,
          show calcBidStep s law intent none m =
              some ⟨law, matcherActorScore s intent m + matcherTargetScore s intent m +
                (matcherAuxResult s intent m).1, (matcherAuxResult s intent m).2⟩ by
            simp only [calcBidStep, if_neg hd]]
        obtain ⟨bid, heq, hlaw, hmem, hle, hub⟩ :=
          calcBid_foldl_some s law intent rest
            ⟨law, matcherActorScore s intent m + matcherTargetScore s intent m +
              (matcherAuxResult s intent m).1, (matcherAuxResult s intent m).2⟩ rfl
        rw [heq]
        refine ⟨by simp, fun bid' h' => ?_⟩
        cases h'
        refine ⟨hlaw, ?_, ?_⟩
        · rcases hmem with h | h
          · exact h ▸ List.mem_cons_self _ _
          · exact List.mem_cons_of_mem _ h
        · intro t ht
          rcases List.mem_cons.mp ht with rfl | ht'
          · exact hle
          · exact hub t ht'

/-- C5 (confirmed): for a law handling the intent, `#calculateBid` returns no
bid exactly when every matcher is dropped (some score `DISQUALIFIED`), and
otherwise a bid of that law whose score is a surviving matcher total that is
the maximum over all surviving totals. -/
theorem c5_matcher_aggregation (s : ECSState) (law : Law) (intent : Intent)
    (h : law.intents.contains intent.name = true) :
    (calculateBid s law intent = none ↔ survivingMatcherScores s law intent = []) ∧
    (∀ bid, calculateBid s law intent = some bid →
       bid.law = law ∧ bid.score ∈ survivingMatcherScores s law intent ∧
       ∀ t ∈ survivingMatcherScores s law intent, t ≤ bid.score) := by
  unfold calculateBid survivingMatcherScores
  rw [if_neg (not_not_intro h)]
  exact calcBid_foldl_none s law intent law.matchers

/-- C5 witness: the always-passing law's single unconstrained matcher
survives with total 0, so the bid exists. -/
theorem c5_matcher_aggregation_witness :
    passLaw.intents.contains goIntent.name = true ∧
    (calculateBid exampleState passLaw goIntent = none ↔
      survivingMatcherScores exampleState passLaw goIntent = []) :=
  ⟨by decide, (c5_matcher_aggregation exampleState passLaw goIntent (by decide)).1⟩

/-! ## C6 — concern scoring and disqualification -/

theorem foldl_le_of_step {α : Type} (f : Rat → α → Rat)
    (hf : ∀ acc x, acc ≤ f acc x) : ∀ (l : List α) (init : Rat), init ≤ l.foldl f init := by
  intro l
  induction l with
  | nil => intro init; exact le_refl init
  | cons x xs ih => intro init; exact le_trans (hf init x) (ih (f init x))

theorem concernIdScore_nonneg (s : ECSState) (e : Nat) (ids : List String) :
    0 ≤ concernIdScore s e ids := by
  refine foldl_le_of_step _ (fun acc id => ?_) ids 0
  split
  · simp only [biddingIdMatchPrice]; linarith
  · exact le_refl acc

theorem concernComponentScore_nonneg (s : ECSState) (e : Nat) (cs : List String) :
    0 ≤ concernComponentScore s e cs := by
  refine foldl_le_of_step _ (fun acc c => ?_) cs 0
  split
  · simp only [biddingComponentMatchPrice]; linarith
  · exact le_refl acc

theorem propEntryScore_nonneg (s : ECSState) (e : Nat) (pm : PropMatcher) :
    0 ≤ propEntryScore s e pm := by
  simp only [propEntryScore]
  split
  · exact le_refl 0
  · split
    · exact le_refl 0
    · split
      · exact le_refl 0
      · split
        · exact le_refl 0
        · split
          · simp [biddingPropsMatchPrice]
          · exact le_refl 0

theorem concernPropsScore_nonneg (s : ECSState) (e : Nat) (ps : List PropMatcher) :
    0 ≤ concernPropsScore s e ps := by
  refine foldl_le_of_step _ (fun acc pm => ?_) ps 0
  have := propEntryScore_nonneg s e pm
  linarith

theorem concernTagsScore_nonneg (s : ECSState) (e : Nat) (ts : List String) :
    0 ≤ concernTagsScore s e ts := by
  refine foldl_le_of_step _ (fun acc t => ?_) ts 0
  split
  · simp only [biddingTagsMatchPrice]; linarith
  · exact le_refl acc

/-- C6 (amended): a concern evaluates to `DISQUALIFIED` exactly when the
`ids` field is *present* (empty included — the source tests `concern.ids`
truthiness there) with an id-match sum of zero, or some present *non-empty*
`components` / `props` / `tags` category has a matched-weight sum of zero;
otherwise the score is the sum of the four category sums; and a concern with
`ids: ['king']` against an entity that is not the pretty-id `king` always
yields `DISQUALIFIED`, whatever the other categories would score. -/
theorem c6_concern_scoring (s : ECSState) (e : Nat) (c : LawConcern) :
    (calculateConcernSpecificity s e c = -1 ↔
       (c.ids.isSome ∧ concernIdScore s e (c.ids.getD []) = 0) ∨
       (c.components.getD [] ≠ [] ∧ concernComponentScore s e (c.components.getD []) = 0) ∨
       (c.props.getD [] ≠ [] ∧ concernPropsScore s e (c.props.getD []) = 0) ∨
       (c.tags.getD [] ≠ [] ∧ concernTagsScore s e (c.tags.getD []) = 0)) ∧
    (calculateConcernSpecificity s e c ≠ -1 →
       calculateConcernSpecificity s e c =
         concernComponentScore s e (c.components.getD []) +
         concernPropsScore s e (c.props.getD []) +
         concernTagsScore s e (c.tags.getD []) +
         concernIdScore s e (c.ids.getD [])) ∧
    (c.ids = some ["king"] → getEntityByPrettyId s "king" ≠ some e →
       calculateConcernSpecificity s e c = -1) := by
  unfold calculateConcernSpecificity
  by_cases h1 : c.ids.isSome ∧ concernIdScore s e (c.ids.getD []) = 0
  · rw [if_pos h1]
    exact ⟨⟨fun _ => Or.inl h1, fun _ => rfl⟩, fun hne => absurd rfl hne, fun _ _ => rfl⟩
  · rw [if_neg h1]
    have hking : c.ids = some ["king"] → getEntityByPrettyId s "king" ≠ some e → False := by
      intro hk hlook
      refine h1 ⟨by rw [hk]; rfl, ?_⟩
      rw [hk]
      show concernIdScore s e ["king"] = 0
      unfold concernIdScore
      rw [List.foldl_cons, if_neg hlook]
      rfl
    by_cases h2 : c.components.getD [] ≠ [] ∧ concernComponentScore s e (c.components.getD []) = 0
    · rw [if_pos h2]
      exact ⟨⟨fun _ => Or.inr (Or.inl h2), fun _ => rfl⟩, fun hne => absurd rfl hne,
        fun hk hl => rfl⟩
    · rw [if_neg h2]
      by_cases h3 : c.props.getD [] ≠ [] ∧ concernPropsScore s e (c.props.getD []) = 0
      · rw [if_pos h3]
        exact ⟨⟨fun _ => Or.inr (Or.inr (Or.inl h3)), fun _ => rfl⟩,
          fun hne => absurd rfl hne, fun hk hl => rfl⟩
      · rw [if_neg h3]
        by_cases h4 : c.tags.getD [] ≠ [] ∧ concernTagsScore s e (c.tags.getD []) = 0
        · rw [if_pos h4]
          exact ⟨⟨fun _ => Or.inr (Or.inr (Or.inr h4)), fun _ => rfl⟩,
            fun hne => absurd rfl hne, fun hk hl => rfl⟩
        · rw [if_neg h4]
          have hpos : (0 : Rat) ≤
              concernComponentScore s e (c.components.getD []) +
              concernPropsScore s e (c.props.getD []) +
              concernTagsScore s e (c.tags.getD []) +
              concernIdScore s e (c.ids.getD []) := by
            have i1 := concernComponentScore_nonneg s e (c.components.getD [])
            have i2 := concernPropsScore_nonneg s e (c.props.getD [])
            have i3 := concernTagsScore_nonneg s e (c.tags.getD [])
            have i4 := concernIdScore_nonneg s e (c.ids.getD [])
            linarith
          refine ⟨⟨fun hS => absurd hS (by intro hS'; rw [hS'] at hpos; linarith), ?_⟩,
            fun _ => rfl, fun hk hl => absurd (hking hk hl) id⟩
          rintro (h | h | h | h)
          · exact absurd h h1
          · exact absurd h h2
          · exact absurd h h3
          · exact absurd h h4

/-- C6 counterexample to the claim as stated: the concern
`{ids: [], tags: ['sparkplug']}` against the tagged entity 1 has *no
populated category with a zero sum* (the ids list is empty, the tags sum is
2.5), yet the source disqualifies it — the `ids` guard tests presence, not
population. -/
theorem c6_concern_scoring_counterexample :
    calculateConcernSpecificity exampleState 1 emptyIdsConcern = -1 ∧
    claimC6Disqualified exampleState 1 emptyIdsConcern = false := by
  with_unfolding_all decide

/-- C6 witness: the `ids: ['king']` example applied to the tagged entity 1
(whose tag would otherwise score). -/
theorem c6_concern_scoring_witness :
    kingConcern.ids = some ["king"] ∧
    getEntityByPrettyId exampleState "king" ≠ some 1 ∧
    calculateConcernSpecificity exampleState 1 kingConcern = -1 :=
  ⟨rfl, by decide,
   (c6_concern_scoring exampleState 1 kingConcern).2.2 rfl (by decide)⟩

/-! ## C4 — the auxiliary permutation search -/

theorem insertEverywhere_ne_nil (x : Nat) (l : List Nat) : insertEverywhere x l ≠ [] := by
  cases l <;> simp [insertEverywhere]

theorem mem_insertEverywhere_perm (x : Nat) :
    ∀ (l q : List Nat), q ∈ insertEverywhere x l → q.Perm (x :: l) := by
  intro l
  induction l with
  | nil =>
      intro q hq
      simp only [insertEverywhere, List.mem_singleton] at hq
      rw [hq]
  | cons y ys ih =>
      intro q hq
      rw [insertEverywhere] at hq
      rcases List.mem_cons.mp hq with rfl | hq'
      · exact List.Perm.refl _
      · rcases List.mem_map.mp hq' with ⟨q', hq'', rfl⟩
        exact ((ih q' hq'').cons y).trans (List.Perm.swap x y ys)

theorem jsPermutations_foldl_perm :
    ∀ (l : List Nat) (perms : List (List Nat)) (base : List Nat),
    (∀ p ∈ perms, p.Perm base) →
    ∀ q ∈ l.foldl (fun perms entityId => perms.flatMap (insertEverywhere entityId)) perms,
      q.Perm (base ++ l) := by
  intro l
  induction l with
  | nil =>
      intro perms base hb q hq
      simpa using hb q hq
  | cons e rest ih =>
      intro perms base hb q hq
      rw [List.foldl_cons] at hq
      have hstep : ∀ p ∈ perms.flatMap (insertEverywhere e), p.Perm (base ++ [e]) := by
        intro p hp
        rcases List.mem_flatMap.mp hp with ⟨p0, hp0, hpin⟩
        exact ((mem_insertEverywhere_perm e p0 p hpin).trans
          ((hb p0 hp0).cons e)).trans (List.perm_append_singleton e base).symm
      have h := ih _ (base ++ [e]) hstep q hq
      simpa using h

/-- Every generated permutation is a permutation of the auxiliary list. -/
theorem mem_jsPermutations_perm {l q : List Nat} (hq : q ∈ jsPermutations l) : q.Perm l := by
  have h := jsPermutations_foldl_perm l [[]] [] (by simp) q hq
  simpa using h

theorem bestScanStep_foldl_spec :
    ∀ (l : List (Nat × Rat)) (init : Rat × Nat),
    init.1 ≤ (l.foldl bestScanStep init).1 ∧
    (∀ p ∈ l, p.2 ≤ (l.foldl bestScanStep init).1) ∧
    (l.foldl bestScanStep init = init ∨
      ((l.foldl bestScanStep init).2, (l.foldl bestScanStep init).1) ∈ l) := by
  intro l
  induction l with
  | nil => intro init; exact ⟨le_refl _, by simp, Or.inl rfl⟩
  | cons p rest ih =>
      intro init
      rw [List.foldl_cons]
      by_cases hp : p.2 > init.1
      · rw [show bestScanStep init p = (p.2, p.1) by simp [bestScanStep, if_pos hp]]
        obtain ⟨i1, i2, i3⟩ := ih (p.2, p.1)
        refine ⟨le_trans (le_of_lt hp) i1, ?_, ?_⟩
        · intro q hq
          rcases List.mem_cons.mp hq with rfl | hq'
          · exact i1
          · exact i2 q hq'
        · rcases i3 with h | h
          · right
            rw [h]
            simp
          · exact Or.inr (List.mem_cons_of_mem _ h)
      · rw [show bestScanStep init p = init by simp [bestScanStep, if_neg hp]]
        obtain ⟨i1, i2, i3⟩ := ih init
        refine ⟨i1, ?_, ?_⟩
        · intro q hq
          rcases List.mem_cons.mp hq with rfl | hq'
          · exact le_trans (le_of_not_lt hp) i1
          · exact i2 q hq'
        · rcases i3 with h | h
          · exact Or.inl h
          · exact Or.inr (List.mem_cons_of_mem _ h)

/-- C4 (amended): with non-empty auxiliary concerns and auxiliary entities,
the matcher's auxiliary score bounds every permutation's positional score
from above and is either one of those scores or the scan's starting value 0
(the score is clamped at 0: when every permutation scores negative the code
reports 0, not the maximum); whenever the score is positive it is attained
by the permutation carried as `reorderedAuxiliaries`, which is a permutation
of the supplied auxiliaries; and on the wrench/spark-plug example the search
reports `[wrench_entity, spark_plug_entity]` with score 5. -/
theorem c4_aux_permutation_search (s : ECSState) (intent : Intent) (m : LawMatcher)
    (auxConcerns : List LawConcern) (auxEnts : List Nat)
    (hm : m.auxiliary = some auxConcerns) (hi : intent.auxiliary = some auxEnts)
    (hc : auxConcerns ≠ []) (he : auxEnts ≠ []) :
    (∀ t ∈ (jsPermutations auxEnts).map (auxPermutationScore s auxConcerns),
       t ≤ (matcherAuxResult s intent m).1) ∧
    ((matcherAuxResult s intent m).1 = 0 ∨
       (matcherAuxResult s intent m).1 ∈
         (jsPermutations auxEnts).map (auxPermutationScore s auxConcerns)) ∧
    (0 < (matcherAuxResult s intent m).1 →
       ∃ p, (matcherAuxResult s intent m).2 = some p ∧ p ∈ jsPermutations auxEnts ∧
         auxPermutationScore s auxConcerns p = (matcherAuxResult s intent m).1 ∧
         p.Perm auxEnts) ∧
    matcherAuxResult exampleState exampleIntent exampleMatcher = (5, some [2, 1]) := by
  have hred : matcherAuxResult s intent m =
      ((bestPermutationScan
          ((jsPermutations auxEnts).map (auxPermutationScore s auxConcerns))).1,
       some ((jsPermutations auxEnts).getD
          (bestPermutationScan
            ((jsPermutations auxEnts).map (auxPermutationScore s auxConcerns))).2 [])) := by
    unfold matcherAuxResult
    rw [hm, hi]
    dsimp only
    rw [if_pos ⟨hc, he⟩]
  obtain ⟨i1, i2, i3⟩ := bestScanStep_foldl_spec
    ((jsPermutations auxEnts).map (auxPermutationScore s auxConcerns)).enum (0, 0)
  rw [hred]
  refine ⟨?_, ?_, ?_, by with_unfolding_all decide⟩
  · intro t ht
    rcases List.mem_iff_getElem.mp ht with ⟨i, hilen, rfl⟩
    have hen : (i, ((jsPermutations auxEnts).map
        (auxPermutationScore s auxConcerns))[i]) ∈
        ((jsPermutations auxEnts).map (auxPermutationScore s auxConcerns)).enum := by
      have hl : i < ((jsPermutations auxEnts).map
          (auxPermutationScore s auxConcerns)).enum.length := by
        rw [List.enum_length]
        exact hilen
      have := List.getElem_enum
        ((jsPermutations auxEnts).map (auxPermutationScore s auxConcerns)) i hl
      rw [← this]
      exact List.getElem_mem hl
    exact i2 _ hen
  · rcases i3 with h | h
    · left
      show (bestPermutationScan _).1 = 0
      unfold bestPermutationScan
      rw [h]
    · right
      rcases List.mem_enum h with ⟨hlt, heq⟩
      show (bestPermutationScan _).1 ∈ _
      unfold bestPermutationScan
      rw [heq]
      exact List.getElem_mem hlt
  · intro hpos
    rcases i3 with h | h
    · exfalso
      have h0 : (bestPermutationScan ((jsPermutations auxEnts).map
          (auxPermutationScore s auxConcerns))).1 = 0 := by
        unfold bestPermutationScan
        rw [h]
      rw [h0] at hpos
      exact lt_irrefl 0 hpos
    · rcases List.mem_enum h with ⟨hlt, heq⟩
      have hltp : (bestPermutationScan ((jsPermutations auxEnts).map
          (auxPermutationScore s auxConcerns))).2 < (jsPermutations auxEnts).length := by
        have := hlt
        rwa [List.length_map] at this
      refine ⟨(jsPermutations auxEnts)[(bestPermutationScan
          ((jsPermutations auxEnts).map (auxPermutationScore s auxConcerns))).2],
        ?_, List.getElem_mem hltp, ?_, mem_jsPermutations_perm (List.getElem_mem hltp)⟩
      · rw [List.getD_eq_getElem _ _ hltp]
      · unfold bestPermutationScan
        rw [← List.getElem_map (auxPermutationScore s auxConcerns)]
        exact heq.symm

/-- C4 witness: the wrench/spark-plug example conjunct extracted by applying
the theorem at the example world (`1 = spark_plug_entity`,
`2 = wrench_entity`, player order `[1, 2]`, reported order `[2, 1]`). -/
theorem c4_aux_permutation_search_witness :
    matcherAuxResult exampleState exampleIntent exampleMatcher = (5, some [2, 1]) :=
  (c4_aux_permutation_search exampleState exampleIntent exampleMatcher
    [{ tags := some ["wrench"] }, { tags := some ["sparkplug"] }] [1, 2]
    rfl rfl (by decide) (by decide)).2.2.2

/-- C4 counterexample to the claim as stated: with the single concern
`{tags:['a']}` (matched by no entity) and the single auxiliary entity 1,
every permutation (there is one) scores `-1`, so the maximum over
permutations is `-1` — but the matcher's auxiliary score is 0: the scan
starts at 0 and only moves on a strictly greater score. -/
theorem c4_aux_score_counterexample :
    (matcherAuxResult exampleState singleAuxIntent unmatchableAuxMatcher).1 = 0 ∧
    (jsPermutations [1]).map
      (auxPermutationScore exampleState [{ tags := some ["a"] }]) = [-1] := by
  with_unfolding_all decide

end Allegory
